import Mathlib

/-!
Shallow embedding of the pairing-identity and branch-synchronization engine
of the `pair` tool (`pair.go`), together with proofs of its specified
properties.

Strings are modelled by Lean `String`; Go's `strings.Split(s, "@")` is
modelled at the rune level by `splitOnAt` on `List Char`.  Subprocess-backed
state (the git config file, git branch operations) is modelled by explicit
state passing: the config file is a key-value map `Store`, writes that may
fail are driven by a `GitEnv` oracle, and branch operations are driven by a
`Vcs` oracle recording which branches exist and which checkout invocations
succeed.  Each Lean definition mirrors the Go function of the same name.
-/

/-- Go `strings.Split(s, "@")` on the character list of `s`: splits around
each occurrence of `'@'`; the empty list yields `[[]]` (one empty part),
matching Go's `Split("", sep) = [""]`. -/
def splitOnAt : List Char → List (List Char)
  | [] => [[]]
  | c :: cs =>
    if c = '@' then [] :: splitOnAt cs
    else (c :: (splitOnAt cs).headD []) :: (splitOnAt cs).tail

/-- `SplitEmail` (pair.go): splits an email address into the username and the
host; errors unless splitting on `"@"` yields exactly two parts. -/
def SplitEmail (email : String) : Except String (String × String) :=
  match splitOnAt email.data with
  | [u, h] => .ok (String.mk u, String.mk h)
  | _ => .error ("invalid email address: " ++ email)

/-- `EmailAddressForUsernames` (pair.go): generates an email address from a
list of usernames and a template address. -/
def EmailAddressForUsernames (emailTemplate : String) (usernames : List String) :
    Except String String :=
  match SplitEmail emailTemplate with
  | .error e => .error e
  | .ok (user, host) =>
    match usernames with
    | [] => .ok emailTemplate
    | [u] => .ok (u ++ "@" ++ host)
    | _ => .ok (user ++ "+" ++ String.intercalate "+" usernames ++ "@" ++ host)

/-- The lookup loop of `NamesForUsernames` (pair.go): resolves each username
through the author map in order, failing at the first missing username. -/
def lookupNames (usernames : List String) (authorMap : String → Option String) :
    Except String (List String) :=
  match usernames with
  | [] => .ok []
  | u :: us =>
    match authorMap u with
    | none => .error ("no such username: " ++ u)
    | some n => (lookupNames us authorMap).map (fun ns => n :: ns)

/-- `NamesForUsernames` (pair.go): joins names corresponding to usernames
with `" and "`; the empty username list yields the empty string. -/
def NamesForUsernames (usernames : List String) (authorMap : String → Option String) :
    Except String String :=
  match usernames with
  | [] => .ok ""
  | _ => (lookupNames usernames authorMap).map (String.intercalate " and ")

/-- The sorting step of `SetAndPrintNewPairedUsers` (pair.go):
`sort.Strings(usernames)` sorts the usernames lexicographically.  Go's sort
produces the unique `≤`-sorted permutation of the input; `insertionSort`
produces the same list. -/
def sortStrings (usernames : List String) : List String :=
  usernames.insertionSort (· ≤ ·)

/-- The git config file, modelled as a key-value map (`git config --file`
semantics: a key is either set to a string or absent). -/
def Store := String → Option String

/-- Write-failure oracle for the subprocess-backed store: `writeOk k` tells
whether the `git config <k> <v>` subprocess succeeds. -/
structure GitEnv where
  writeOk : String → Bool

/-- `GitConfig` (pair.go): reads a key from the config file; `git config`
fails (non-zero exit) when the key is not set. -/
def GitConfig (st : Store) (property : String) : Except String String :=
  match st property with
  | none => .error ("exit status 1: " ++ property)
  | some v => .ok v

/-- Point update of the key-value store. -/
def setKey (st : Store) (k v : String) : Store :=
  fun q => if q = k then some v else st q

/-- `SetGitConfig` (pair.go): writes a key through the `git config`
subprocess; on subprocess failure the store is unchanged and `false` is
returned. -/
def SetGitConfig (env : GitEnv) (st : Store) (property value : String) :
    Store × Bool :=
  if env.writeOk property then (setKey st property value, true) else (st, false)

/-- `PrintCurrentPairedUsers` (pair.go): reads back `user.name` and
`user.email` and reports them; returns `false` when either read fails.  The
store is only read, never written. -/
def PrintCurrentPairedUsers (st : Store) : Bool :=
  match GitConfig st "user.name" with
  | .error _ => false
  | .ok _ =>
    match GitConfig st "user.email" with
    | .error _ => false
    | .ok _ => true

/-- `SetAndPrintNewPairedUsers` (pair.go), with the pairs-file load
abstracted to its resulting `authorMap`: sorts the usernames, derives the
composite email and display name, writes both keys (name first, then
email), and concludes with the read-back report.  Returns the final store
and the success flag. -/
def SetAndPrintNewPairedUsers (env : GitEnv) (st : Store)
    (authorMap : String → Option String) (emailTemplate : String)
    (usernames : List String) : Store × Bool :=
  match EmailAddressForUsernames emailTemplate (sortStrings usernames) with
  | .error _ => (st, false)
  | .ok email =>
    match NamesForUsernames (sortStrings usernames) authorMap with
    | .error _ => (st, false)
    | .ok name =>
      let r1 := SetGitConfig env st "user.name" name
      if r1.2 = false then (r1.1, false)
      else
        let r2 := SetGitConfig env r1.1 "user.email" email
        if r2.2 = false then (r2.1, false)
        else (r2.1, PrintCurrentPairedUsers r2.1)

/-- The dispatch in `main` (pair.go): no username arguments means
report-only (`PrintCurrentPairedUsers`); otherwise the synchronizer
`SetAndPrintNewPairedUsers` runs. -/
def runPair (env : GitEnv) (st : Store) (authorMap : String → Option String)
    (emailTemplate : String) (usernames : List String) : Store × Bool :=
  match usernames with
  | [] => (st, PrintCurrentPairedUsers st)
  | _ => SetAndPrintNewPairedUsers env st authorMap emailTemplate usernames

/-- Go `strings.TrimPrefix(s, pre)`: drops `pre` from the front of `s` when
it is a prefix, otherwise returns `s` unchanged. -/
def trimPrefixOf (s pre : String) : String :=
  if pre.data.isPrefixOf s.data then String.mk (s.data.drop pre.data.length) else s

/-- Branch-operation oracle: which branches exist (`git rev-parse` succeeds)
and which checkout invocations succeed. -/
structure Vcs where
  branchExists : String → Bool
  checkoutOk : List String → Bool

/-- The git arguments issued by `SwitchToPairBranch` (pair.go) once the full
branch name is known: a plain checkout when the branch exists, otherwise a
create-and-checkout rooted at the literal `"master"`. -/
def checkoutArgs (vcs : Vcs) (fullBranch : String) : List String :=
  if vcs.branchExists fullBranch then ["checkout", fullBranch]
  else ["checkout", "-b", fullBranch, "master"]

/-- Modelled from the spec (§4.4 step 5), for comparison with
`checkoutArgs`: a create-and-checkout "rooted at the primary branch (name
supplied by configuration, default master/main)" would take the primary
branch name as an input. -/
def checkoutArgsSpec (primaryBranch : String) (vcs : Vcs) (fullBranch : String) :
    List String :=
  if vcs.branchExists fullBranch then ["checkout", fullBranch]
  else ["checkout", "-b", fullBranch, primaryBranch]

/-- `SwitchToPairBranch` (pair.go): reads `user.email` from the config
store, splits the template and the stored email, strips the template's
`localPart+` prefix from the stored email's local-part if present, composes
`<rest>/<branch>`, and issues the checkout.  Returns the issued git
arguments (`none` when the operation aborts before reaching git) and the
success flag. -/
def SwitchToPairBranch (vcs : Vcs) (st : Store) (branch emailTemplate : String) :
    Option (List String) × Bool :=
  match GitConfig st "user.email" with
  | .error _ => (none, false)
  | .ok email =>
    match SplitEmail emailTemplate with
    | .error _ => (none, false)
    | .ok (templateUsername, _) =>
      match SplitEmail email with
      | .error _ => (none, false)
      | .ok (usernames, _) =>
        (some (checkoutArgs vcs
            (trimPrefixOf usernames (templateUsername ++ "+") ++ "/" ++ branch)),
         vcs.checkoutOk (checkoutArgs vcs
            (trimPrefixOf usernames (templateUsername ++ "+") ++ "/" ++ branch)))

theorem splitOnAt_ne_nil (l : List Char) : splitOnAt l ≠ [] := by
  cases l with
  | nil => simp [splitOnAt]
  | cons c cs =>
    simp only [splitOnAt]
    split <;> simp

theorem length_splitOnAt (l : List Char) :
    (splitOnAt l).length = l.count '@' + 1 := by
  induction l with
  | nil => simp [splitOnAt]
  | cons c cs ih =>
    by_cases hc : c = '@'
    · subst hc
      simp [splitOnAt, ih]
    · obtain ⟨p, ps, hps⟩ := List.exists_cons_of_ne_nil (splitOnAt_ne_nil cs)
      rw [hps] at ih
      simp only [List.length_cons] at ih
      simp [splitOnAt, hc, hps, List.count_cons_of_ne (Ne.symm hc), ih]

theorem splitOnAt_no_at (l : List Char) (h : l.count '@' = 0) : splitOnAt l = [l] := by
  induction l with
  | nil => rfl
  | cons c cs ih =>
    by_cases hc : c = '@'
    · subst hc; simp at h
    · rw [List.count_cons_of_ne (Ne.symm hc)] at h
      simp [splitOnAt, hc, ih h]

theorem splitOnAt_pair (l₁ l₂ : List Char) (h₁ : l₁.count '@' = 0)
    (h₂ : l₂.count '@' = 0) : splitOnAt (l₁ ++ '@' :: l₂) = [l₁, l₂] := by
  induction l₁ with
  | nil => simp [splitOnAt, splitOnAt_no_at l₂ h₂]
  | cons c cs ih =>
    by_cases hc : c = '@'
    · subst hc; simp at h₁
    · rw [List.count_cons_of_ne (Ne.symm hc)] at h₁
      simp [splitOnAt, hc, ih h₁]

theorem splitOnAt_eq_single (l a : List Char) (h : splitOnAt l = [a]) :
    l = a ∧ a.count '@' = 0 := by
  induction l generalizing a with
  | nil =>
    simp only [splitOnAt, List.cons.injEq] at h
    simp [← h.1]
  | cons c cs ih =>
    simp only [splitOnAt] at h
    by_cases hc : c = '@'
    · rw [if_pos hc] at h
      simp only [List.cons.injEq] at h
      exact absurd h.2 (splitOnAt_ne_nil cs)
    · rw [if_neg hc] at h
      obtain ⟨p, ps, hps⟩ := List.exists_cons_of_ne_nil (splitOnAt_ne_nil cs)
      rw [hps] at h
      simp only [List.headD_cons, List.tail_cons, List.cons.injEq] at h
      obtain ⟨ha, hps2⟩ := h
      subst hps2
      obtain ⟨hcs, hp⟩ := ih p hps
      subst hcs
      refine ⟨by rw [← ha], ?_⟩
      rw [← ha, List.count_cons_of_ne (Ne.symm hc)]
      exact hp

theorem splitOnAt_eq_pair (l a b : List Char) (h : splitOnAt l = [a, b]) :
    l = a ++ '@' :: b ∧ a.count '@' = 0 ∧ b.count '@' = 0 := by
  induction l generalizing a b with
  | nil => simp [splitOnAt] at h
  | cons c cs ih =>
    simp only [splitOnAt] at h
    by_cases hc : c = '@'
    · rw [if_pos hc] at h
      simp only [List.cons.injEq] at h
      obtain ⟨ha, hcs⟩ := h
      obtain ⟨hl, hb⟩ := splitOnAt_eq_single cs b hcs
      subst hl hc
      simp [← ha, hb]
    · rw [if_neg hc] at h
      obtain ⟨p, ps, hps⟩ := List.exists_cons_of_ne_nil (splitOnAt_ne_nil cs)
      rw [hps] at h
      simp only [List.headD_cons, List.tail_cons, List.cons.injEq] at h
      obtain ⟨ha, hps2⟩ := h
      subst hps2
      obtain ⟨hcs, hp, hb⟩ := ih p b hps
      subst hcs
      refine ⟨?_, ?_, hb⟩
      · rw [← ha]; simp
      · rw [← ha, List.count_cons_of_ne (Ne.symm hc)]
        exact hp

theorem data_append (s t : String) : (s ++ t).data = s.data ++ t.data := by
  cases s; cases t; rfl

theorem splitEmail_ok_decomp (email u h : String)
    (hok : SplitEmail email = .ok (u, h)) :
    email = u ++ "@" ++ h ∧ u.data.count '@' = 0 ∧ h.data.count '@' = 0 := by
  unfold SplitEmail at hok
  rcases hsp : splitOnAt email.data with _ | ⟨a, _ | ⟨b, _ | ⟨c, rest⟩⟩⟩ <;>
    rw [hsp] at hok
  · exact absurd hok (by simp)
  · exact absurd hok (by simp)
  · simp only [Except.ok.injEq, Prod.mk.injEq] at hok
    obtain ⟨hu, hh⟩ := hok
    obtain ⟨hdecomp, ha, hb⟩ := splitOnAt_eq_pair email.data a b hsp
    subst hu hh
    refine ⟨String.ext ?_, ha, hb⟩
    rw [data_append, data_append]
    simpa using hdecomp
  · exact absurd hok (by simp)

theorem splitEmail_ok_iff (email : String) :
    (∃ p, SplitEmail email = .ok p) ↔ email.data.count '@' = 1 := by
  have hlen := length_splitOnAt email.data
  constructor
  · rintro ⟨p, hp⟩
    unfold SplitEmail at hp
    rcases hsp : splitOnAt email.data with _ | ⟨a, _ | ⟨b, _ | ⟨c, rest⟩⟩⟩ <;>
      rw [hsp] at hp hlen
    · exact absurd hp (by simp)
    · exact absurd hp (by simp)
    · simpa using hlen.symm
    · exact absurd hp (by simp)
  · intro hcount
    rw [hcount] at hlen
    rcases hsp : splitOnAt email.data with _ | ⟨a, _ | ⟨b, _ | ⟨c, rest⟩⟩⟩ <;>
      rw [hsp] at hlen <;> simp at hlen
    exact ⟨(String.mk a, String.mk b), by unfold SplitEmail; rw [hsp]⟩

/-- C5: `SplitEmail` returns the (local-part, domain) pair if and only if
the input contains exactly one `'@'`; otherwise it fails with the malformed
address error.  In particular `SplitEmail "a@b.com" = .ok ("a", "b.com")`,
while `SplitEmail ""` and `SplitEmail "a@b@c"` both fail. -/
theorem splitEmail_spec (email : String) :
    ((∃ p, SplitEmail email = .ok p) ↔ email.data.count '@' = 1) ∧
    (∀ u h, SplitEmail email = .ok (u, h) →
        email = u ++ "@" ++ h ∧ u.data.count '@' = 0 ∧ h.data.count '@' = 0) ∧
    SplitEmail "a@b.com" = .ok ("a", "b.com") ∧
    SplitEmail "" = .error "invalid email address: " ∧
    SplitEmail "a@b@c" = .error "invalid email address: a@b@c" :=
  ⟨splitEmail_ok_iff email, fun u h => splitEmail_ok_decomp email u h, rfl, rfl, rfl⟩

/-- C1: for every template with exactly one `"@"`, local-part `L` and domain
`D`, `EmailAddressForUsernames` returns the template unchanged on an empty
alias list, `a@D` on a single alias, and `L+a1+...+an@D` (aliases joined
with `"+"` after `L`, in caller order) on two or more aliases; with the
spec's concrete examples. -/
theorem emailAddressForUsernames_spec (t L D : String)
    (h : SplitEmail t = .ok (L, D)) :
    EmailAddressForUsernames t [] = .ok t ∧
    (∀ a, EmailAddressForUsernames t [a] = .ok (a ++ "@" ++ D)) ∧
    (∀ a b rest, EmailAddressForUsernames t (a :: b :: rest) =
        .ok (L ++ "+" ++ String.intercalate "+" (a :: b :: rest) ++ "@" ++ D)) ∧
    EmailAddressForUsernames "git@x.com" [] = .ok "git@x.com" ∧
    EmailAddressForUsernames "git@x.com" ["mb"] = .ok "mb@x.com" ∧
    EmailAddressForUsernames "git@x.com" ["lb", "mb"] = .ok "git+lb+mb@x.com" := by
  refine ⟨?_, ?_, ?_, rfl, rfl, rfl⟩
  · unfold EmailAddressForUsernames
    rw [h]
  · intro a
    unfold EmailAddressForUsernames
    rw [h]
  · intro a b rest
    unfold EmailAddressForUsernames
    rw [h]

theorem emailAddressForUsernames_spec_witness :
    EmailAddressForUsernames "git@x.com" ["lb", "mb"] =
      .ok ("git" ++ "+" ++ String.intercalate "+" ["lb", "mb"] ++ "@" ++ "x.com") :=
  (emailAddressForUsernames_spec "git@x.com" "git" "x.com" rfl).2.2.1 "lb" "mb" []

theorem sortStrings_eq_of_perm (S1 S2 : List String) (h : S1.Perm S2) :
    sortStrings S1 = sortStrings S2 :=
  List.eq_of_perm_of_sorted
    (((List.perm_insertionSort _ S1).trans h).trans
      (List.perm_insertionSort _ S2).symm)
    (List.sorted_insertionSort _ S1) (List.sorted_insertionSort _ S2)

/-- C2: alias lists with the same elements in different orders produce the
same composite identity: the derived email, the derived display name, and
the whole synchronizer run agree, because the aliases are sorted
lexicographically before encoding and display-name joining. -/
theorem sync_order_independence (S1 S2 : List String) (hperm : S1.Perm S2) :
    (∀ t, EmailAddressForUsernames t (sortStrings S1) =
        EmailAddressForUsernames t (sortStrings S2)) ∧
    (∀ m, NamesForUsernames (sortStrings S1) m =
        NamesForUsernames (sortStrings S2) m) ∧
    (∀ env st m t, SetAndPrintNewPairedUsers env st m t S1 =
        SetAndPrintNewPairedUsers env st m t S2) := by
  have hs : sortStrings S1 = sortStrings S2 := sortStrings_eq_of_perm S1 S2 hperm
  refine ⟨fun t => by rw [hs], fun m => by rw [hs], fun env st m t => ?_⟩
  unfold SetAndPrintNewPairedUsers
  rw [hs]

theorem sync_order_independence_witness :
    EmailAddressForUsernames "git@x.com" (sortStrings ["mb", "lb"]) =
      EmailAddressForUsernames "git@x.com" (sortStrings ["lb", "mb"]) :=
  (sync_order_independence ["mb", "lb"] ["lb", "mb"] (by decide)).1 "git@x.com"

theorem lookupNames_ok (usernames names : List String)
    (m : String → Option String) (h : usernames.map m = names.map some) :
    lookupNames usernames m = .ok names := by
  induction usernames generalizing names with
  | nil =>
    cases names with
    | nil => rfl
    | cons n ns => simp at h
  | cons u us ih =>
    cases names with
    | nil => simp at h
    | cons n ns =>
      simp only [List.map_cons, List.cons.injEq] at h
      obtain ⟨h1, h2⟩ := h
      simp [lookupNames, h1, ih ns h2, Except.map]

/-- C6: when every alias resolves in the directory, `NamesForUsernames`
returns the corresponding full names joined with `" and "` in input order;
the empty alias list yields the empty string with no error (the empty join
is the empty string). -/
theorem namesForUsernames_spec (usernames names : List String)
    (m : String → Option String) (h : usernames.map m = names.map some) :
    NamesForUsernames usernames m = .ok (String.intercalate " and " names) := by
  cases usernames with
  | nil =>
    cases names with
    | nil => rfl
    | cons n ns => simp at h
  | cons u us =>
    have hred : NamesForUsernames (u :: us) m =
        (lookupNames (u :: us) m).map (String.intercalate " and ") := rfl
    rw [hred, lookupNames_ok (u :: us) names m h]
    rfl

theorem namesForUsernames_spec_witness :
    NamesForUsernames [] (fun _ => none) = .ok "" ∧
    NamesForUsernames ["mb"]
        (fun s => if s = "mb" then some "Michael Bluth" else none) =
      .ok "Michael Bluth" ∧
    NamesForUsernames ["lb", "mb"]
        (fun s => if s = "lb" then some "Lindsay Bluth"
                  else if s = "mb" then some "Michael Bluth" else none) =
      .ok "Lindsay Bluth and Michael Bluth" :=
  ⟨namesForUsernames_spec [] [] (fun _ => none) rfl,
   namesForUsernames_spec ["mb"] ["Michael Bluth"] _ rfl,
   namesForUsernames_spec ["lb", "mb"] ["Lindsay Bluth", "Michael Bluth"] _ rfl⟩

theorem lookupNames_missing (l : List String) (m : String → Option String)
    (h : ∃ u ∈ l, m u = none) :
    ∃ u ∈ l, m u = none ∧
      lookupNames l m = .error ("no such username: " ++ u) := by
  induction l with
  | nil => simp at h
  | cons a as ih =>
    cases ha : m a with
    | none =>
      exact ⟨a, List.mem_cons_self a as, ha, by simp [lookupNames, ha]⟩
    | some n =>
      have h' : ∃ u ∈ as, m u = none := by
        obtain ⟨u, hu, hmu⟩ := h
        rcases List.mem_cons.mp hu with rfl | hu2
        · rw [ha] at hmu
          exact absurd hmu (by simp)
        · exact ⟨u, hu2, hmu⟩
      obtain ⟨u, hu, hmu, herr⟩ := ih h'
      refine ⟨u, List.mem_cons_of_mem a hu, hmu, ?_⟩
      simp [lookupNames, ha, herr, Except.map]

theorem namesForUsernames_missing (l : List String) (m : String → Option String)
    (h : ∃ u ∈ l, m u = none) :
    ∃ u ∈ l, m u = none ∧
      NamesForUsernames l m = .error ("no such username: " ++ u) := by
  obtain ⟨u, hu, hmu, herr⟩ := lookupNames_missing l m h
  refine ⟨u, hu, hmu, ?_⟩
  cases l with
  | nil => simp at hu
  | cons a as =>
    have hred : NamesForUsernames (a :: as) m =
        (lookupNames (a :: as) m).map (String.intercalate " and ") := rfl
    rw [hred, herr]
    rfl

theorem emailAddressForUsernames_ok (t L D : String) (us : List String)
    (h : SplitEmail t = .ok (L, D)) :
    ∃ e, EmailAddressForUsernames t us = .ok e := by
  unfold EmailAddressForUsernames
  rw [h]
  rcases us with _ | ⟨a, _ | ⟨b, rest⟩⟩ <;> exact ⟨_, rfl⟩

/-- C3: with a well-formed template, an alias list containing an alias
absent from the directory makes the synchronizer fail with the
unknown-username error naming a missing alias, and the store is returned
exactly as it was: neither `user.name` nor `user.email` is written. -/
theorem sync_unknown_alias_spec (env : GitEnv) (st : Store)
    (m : String → Option String) (t L D : String) (usernames : List String)
    (ht : SplitEmail t = .ok (L, D))
    (hmiss : ∃ u ∈ usernames, m u = none) :
    SetAndPrintNewPairedUsers env st m t usernames = (st, false) ∧
    ∃ u ∈ usernames, m u = none ∧
      NamesForUsernames (sortStrings usernames) m =
        .error ("no such username: " ++ u) := by
  have hmiss' : ∃ u ∈ sortStrings usernames, m u = none := by
    obtain ⟨u, hu, hmu⟩ := hmiss
    exact ⟨u, (List.perm_insertionSort _ usernames).mem_iff.mpr hu, hmu⟩
  obtain ⟨u, hu, hmu, herr⟩ := namesForUsernames_missing _ m hmiss'
  have hu' : u ∈ usernames := (List.perm_insertionSort _ usernames).mem_iff.mp hu
  obtain ⟨e, he⟩ := emailAddressForUsernames_ok t L D (sortStrings usernames) ht
  refine ⟨?_, u, hu', hmu, herr⟩
  unfold SetAndPrintNewPairedUsers
  rw [he, herr]

theorem sync_unknown_alias_spec_witness :
    SetAndPrintNewPairedUsers ⟨fun _ => true⟩ (fun _ => none)
        (fun s => if s = "mb" then some "Michael Bluth" else none)
        "git@x.com" ["lb"] = ((fun _ => none : Store), false) ∧
    ∃ u ∈ ["lb"],
      (if u = "mb" then some "Michael Bluth" else none) = none ∧
      NamesForUsernames (sortStrings ["lb"])
          (fun s => if s = "mb" then some "Michael Bluth" else none) =
        .error ("no such username: " ++ u) :=
  sync_unknown_alias_spec ⟨fun _ => true⟩ (fun _ => none)
    (fun s => if s = "mb" then some "Michael Bluth" else none)
    "git@x.com" "git" "x.com" ["lb"] rfl ⟨"lb", by simp, rfl⟩

/-- C7 counterexample: `SetAndPrintNewPairedUsers` invoked directly with the
empty alias list does write the identity store — starting from an empty
store it sets `user.email` to the template (and `user.name` to the empty
string), so the store does not stay what it was. -/
theorem sync_empty_list_counterexample :
    (SetAndPrintNewPairedUsers ⟨fun _ => true⟩ (fun _ => none) (fun _ => none)
        "git@x.com" []).1 "user.email" = some "git@x.com" ∧
    (SetAndPrintNewPairedUsers ⟨fun _ => true⟩ (fun _ => none) (fun _ => none)
        "git@x.com" []).1 "user.name" = some "" ∧
    ((fun _ => none : Store) "user.email" = none) :=
  ⟨rfl, rfl, rfl⟩

/-- C7 amended: the report-only treatment of the empty alias list lives in
`main`'s dispatch, which routes an empty argument list to
`PrintCurrentPairedUsers` and never calls the synchronizer with it; under
that dispatch the store is untouched for the empty list. -/
theorem runPair_empty_no_write (env : GitEnv) (st : Store)
    (m : String → Option String) (t : String) :
    (runPair env st m t []).1 = st := rfl

/-- C9: when the name write succeeds and the email write fails, the
synchronizer reports failure, the written name value remains in the store
(no rollback), and the email key is untouched; there is no retry — the
result is exactly the single name write. -/
theorem sync_write_failure_spec (env : GitEnv) (st : Store)
    (m : String → Option String) (t name email : String)
    (usernames : List String)
    (hE : EmailAddressForUsernames t (sortStrings usernames) = .ok email)
    (hN : NamesForUsernames (sortStrings usernames) m = .ok name)
    (hname : env.writeOk "user.name" = true)
    (hemail : env.writeOk "user.email" = false) :
    SetAndPrintNewPairedUsers env st m t usernames =
      (setKey st "user.name" name, false) ∧
    (setKey st "user.name" name) "user.name" = some name ∧
    (setKey st "user.name" name) "user.email" = st "user.email" := by
  refine ⟨?_, by simp [setKey], by simp [setKey]⟩
  unfold SetAndPrintNewPairedUsers
  rw [hE, hN]
  simp [SetGitConfig, hname, hemail]

theorem sync_write_failure_spec_witness :
    SetAndPrintNewPairedUsers ⟨fun k => k == "user.name"⟩ (fun _ => none)
        (fun s => if s = "mb" then some "Michael Bluth" else none)
        "git@x.com" ["mb"] =
      (setKey (fun _ => none) "user.name" "Michael Bluth", false) ∧
    (setKey (fun _ => none : Store) "user.name" "Michael Bluth") "user.name" =
      some "Michael Bluth" ∧
    (setKey (fun _ => none : Store) "user.name" "Michael Bluth") "user.email" =
      (fun _ => none : Store) "user.email" :=
  sync_write_failure_spec ⟨fun k => k == "user.name"⟩ (fun _ => none)
    (fun s => if s = "mb" then some "Michael Bluth" else none)
    "git@x.com" "Michael Bluth" "mb@x.com" ["mb"] rfl rfl rfl rfl

theorem trimPrefixOf_strip (s pre rest : String)
    (h : s.data = pre.data ++ rest.data) : trimPrefixOf s pre = rest := by
  have hp : pre.data.isPrefixOf s.data = true := by
    rw [h, List.isPrefixOf_iff_prefix]
    exact List.prefix_append _ _
  unfold trimPrefixOf
  rw [hp]
  simp only [if_true]
  apply String.ext
  rw [h, List.drop_left]

theorem trimPrefixOf_id (s pre : String)
    (h : pre.data.isPrefixOf s.data = false) : trimPrefixOf s pre = s := by
  unfold trimPrefixOf
  rw [h]
  simp

theorem gitConfig_ok (st : Store) (k v : String) (h : st k = some v) :
    GitConfig st k = .ok v := by
  unfold GitConfig
  rw [h]

/-- C4: with a stored email and a template each containing exactly one
`"@"`, when the stored email's local-part is the template's local-part
followed by `"+"` and a remainder, the branch switch derives the branch
name `remainder/branchSuffix` and issues the checkout for it; in particular
stored email `git+lb+mb@example.com`, template `git@example.com` and topic
`ONCALL-843` derive the branch name `lb+mb/ONCALL-843`. -/
theorem branch_derivation_spec (vcs : Vcs) (st : Store)
    (email templ branch tL tD eL eD rest : String)
    (hst : st "user.email" = some email)
    (ht : SplitEmail templ = .ok (tL, tD))
    (he : SplitEmail email = .ok (eL, eD))
    (hrest : eL.data = tL.data ++ '+' :: rest.data) :
    SwitchToPairBranch vcs st branch templ =
      (some (checkoutArgs vcs (rest ++ "/" ++ branch)),
       vcs.checkoutOk (checkoutArgs vcs (rest ++ "/" ++ branch))) ∧
    (SwitchToPairBranch vcs
        (setKey (fun _ => none) "user.email" "git+lb+mb@example.com")
        "ONCALL-843" "git@example.com").1 =
      some (checkoutArgs vcs ("lb+mb/ONCALL-843")) := by
  have hstrip : trimPrefixOf eL (tL ++ "+") = rest := by
    apply trimPrefixOf_strip
    rw [data_append]
    simpa using hrest
  constructor
  · simp only [SwitchToPairBranch, gitConfig_ok st "user.email" email hst,
      ht, he, hstrip]
  · rfl

theorem branch_derivation_spec_witness :
    SwitchToPairBranch ⟨fun _ => false, fun _ => true⟩
        (setKey (fun _ => none) "user.email" "git+lb+mb@example.com")
        "ONCALL-843" "git@example.com" =
      (some (checkoutArgs ⟨fun _ => false, fun _ => true⟩
          ("lb+mb" ++ "/" ++ "ONCALL-843")),
       Vcs.checkoutOk ⟨fun _ => false, fun _ => true⟩
         (checkoutArgs ⟨fun _ => false, fun _ => true⟩
           ("lb+mb" ++ "/" ++ "ONCALL-843"))) :=
  (branch_derivation_spec ⟨fun _ => false, fun _ => true⟩
      (setKey (fun _ => none) "user.email" "git+lb+mb@example.com")
      "git+lb+mb@example.com" "git@example.com" "ONCALL-843"
      "git" "example.com" "git+lb+mb" "example.com" "lb+mb"
      rfl rfl rfl rfl).1

/-- C10: when the stored email's local-part does not begin with the
template's local-part followed by `"+"` — including the unpaired case where
the stored email equals the template — the derivation raises no error and
uses the stored email's local-part verbatim, deriving
`emailLocalPart/branchSuffix`; in particular stored email
`git@example.com`, template `git@example.com` and topic `X` derive the
branch name `git/X`. -/
theorem branch_derivation_no_pairing_spec (vcs : Vcs) (st : Store)
    (email templ branch tL tD eL eD : String)
    (hst : st "user.email" = some email)
    (ht : SplitEmail templ = .ok (tL, tD))
    (he : SplitEmail email = .ok (eL, eD))
    (hnp : (tL ++ "+").data.isPrefixOf eL.data = false) :
    SwitchToPairBranch vcs st branch templ =
      (some (checkoutArgs vcs (eL ++ "/" ++ branch)),
       vcs.checkoutOk (checkoutArgs vcs (eL ++ "/" ++ branch))) ∧
    (SwitchToPairBranch vcs
        (setKey (fun _ => none) "user.email" "git@example.com")
        "X" "git@example.com").1 =
      some (checkoutArgs vcs "git/X") := by
  constructor
  · simp only [SwitchToPairBranch, gitConfig_ok st "user.email" email hst,
      ht, he, trimPrefixOf_id eL _ hnp]
  · rfl

theorem branch_derivation_no_pairing_spec_witness :
    SwitchToPairBranch ⟨fun _ => true, fun _ => true⟩
        (setKey (fun _ => none) "user.email" "git@example.com")
        "X" "git@example.com" =
      (some (checkoutArgs ⟨fun _ => true, fun _ => true⟩ ("git" ++ "/" ++ "X")),
       Vcs.checkoutOk ⟨fun _ => true, fun _ => true⟩
         (checkoutArgs ⟨fun _ => true, fun _ => true⟩ ("git" ++ "/" ++ "X"))) :=
  (branch_derivation_no_pairing_spec ⟨fun _ => true, fun _ => true⟩
      (setKey (fun _ => none) "user.email" "git@example.com")
      "git@example.com" "git@example.com" "X"
      "git" "example.com" "git" "example.com"
      rfl rfl rfl rfl).1

/-- C8 counterexample: when the branch does not exist, the create-checkout
issued by the engine is rooted at the hard-coded `"master"`, and differs
from the spec's configuration-supplied primary branch whenever that
configuration names any other branch (here `"main"`): the base is not
supplied by configuration. -/
theorem checkout_primary_branch_counterexample :
    checkoutArgs ⟨fun _ => false, fun _ => true⟩ "lb+mb/ONCALL-843" =
      ["checkout", "-b", "lb+mb/ONCALL-843", "master"] ∧
    checkoutArgs ⟨fun _ => false, fun _ => true⟩ "lb+mb/ONCALL-843" ≠
      checkoutArgsSpec "main" ⟨fun _ => false, fun _ => true⟩
        "lb+mb/ONCALL-843" :=
  ⟨rfl, by decide⟩

/-- C8 amended: after the full branch name is derived, an existing branch
gets a plain checkout, and a missing branch gets a create-and-checkout
rooted at the hard-coded branch name `"master"` (no configuration supplies
the base branch). -/
theorem checkout_dispatch_spec (vcs : Vcs) (fb : String) :
    (vcs.branchExists fb = true → checkoutArgs vcs fb = ["checkout", fb]) ∧
    (vcs.branchExists fb = false →
        checkoutArgs vcs fb = ["checkout", "-b", fb, "master"]) := by
  constructor <;> intro h <;> simp [checkoutArgs, h]

theorem checkout_dispatch_spec_witness :
    checkoutArgs ⟨fun _ => true, fun _ => true⟩ "lb+mb/X" =
      ["checkout", "lb+mb/X"] ∧
    checkoutArgs ⟨fun _ => false, fun _ => true⟩ "lb+mb/X" =
      ["checkout", "-b", "lb+mb/X", "master"] :=
  ⟨(checkout_dispatch_spec ⟨fun _ => true, fun _ => true⟩ "lb+mb/X").1 rfl,
   (checkout_dispatch_spec ⟨fun _ => false, fun _ => true⟩ "lb+mb/X").2 rfl⟩

theorem splitEmail_spec_witness :
    ∃ p, SplitEmail "a@b.com" = .ok p :=
  (splitEmail_spec "a@b.com").1.mpr rfl
